import Mathlib

/-!
Shallow embedding of the EMA-crossover trading bot in `src/service.js`.

Modelling conventions:
* JS numbers are rationals (`ℚ`); a JS value that may be `undefined`
  (e.g. the result of `Array.prototype.at` out of range) is an `Option ℚ`,
  with `none` for `undefined`.  A JS comparison involving `undefined`
  evaluates to `false`, which `jlt`/`jgt` reproduce.
* Wall-clock timestamps (`new Date()`) are opaque `Nat` values supplied to
  each operation by the environment.
* The Mongo `positions` collection is a list of documents; `insertOne`
  appends a document carrying a fresh generated id, and
  `findOneAndUpdate({_id, status: "OPEN"}, ...)` is a conditional
  first-match update (`findOneAndUpdateOpen`).
* `console.log` / `console.warn` / `console.error` output is recorded as a
  list of `LogEvent`s.
* The price fetch (`fetchCloses`) is an external effect: `tick` receives
  `Option (List ℚ)`, `none` standing for a fetch/transport failure that
  would throw inside the `try` block.
-/

/-- Crossover signal, the strings "NONE" / "GOLDEN" / "DEATH" in the source. -/
inductive Signal
  | NONE
  | GOLDEN
  | DEATH
deriving DecidableEq, Repr

/-- Position side, the strings "LONG" / "SHORT" in the source. -/
inductive Side
  | LONG
  | SHORT
deriving DecidableEq, Repr

/-- Position lifecycle status, the strings "OPEN" / "CLOSED" in the source. -/
inductive PStatus
  | OPEN
  | CLOSED
deriving DecidableEq, Repr

/-- Document identifier: either the literal string "dryrun" used by the
DRY_RUN branch of `openTrade`, or a Mongo-generated object id (modelled as a
natural number drawn from a fresh-id counter). -/
inductive DocId
  | dryrun
  | oid (n : Nat)
deriving DecidableEq, Repr

/-- A document of the `positions` collection (and the shape of the in-memory
`openPosition` cache).  Fields absent before close are `Option` with
default `none`. -/
structure PositionDoc where
  id : DocId
  symbol : String
  status : PStatus
  qty : ℚ
  positionType : Side
  entryPrice : Option ℚ
  entryTime : Nat
  entryEMAfast : Option ℚ
  entryEMAslow : Option ℚ
  createdAt : Nat
  updatedAt : Nat
  exitPrice : Option ℚ := none
  exitTime : Option Nat := none
  exitEMAfast : Option ℚ := none
  exitEMAslow : Option ℚ := none
  profitLoss : Option ℚ := none
deriving DecidableEq, Repr

/-- The `cached` object of the source: last computed price, the four EMA
values, both signals and the last tick timestamp. -/
structure Snapshot where
  price : Option ℚ
  emaEntryFast : Option ℚ
  emaEntrySlow : Option ℚ
  emaExitFast : Option ℚ
  emaExitSlow : Option ℚ
  entrySignal : Signal
  exitSignal : Signal
  lastTickAt : Option Nat
deriving DecidableEq, Repr

/-- Console output events relevant to the specified behaviour. -/
inductive LogEvent
  | openEvt
  | closeEvt
  | warnNoOpenToClose
  | warnNotEnoughCandles
  | errTick
  | tickSummary
deriving DecidableEq, Repr

/-- The process-wide mutable state of the service: the re-entrancy flag
`isTickRunning`, the in-memory `openPosition` cache, the `cached` snapshot,
the durable `positions` collection together with the generator counter for
fresh object ids, and the console log. -/
structure BotState where
  isTickRunning : Bool
  openPosition : Option PositionDoc
  cached : Snapshot
  positions : List PositionDoc
  nextId : Nat
  log : List LogEvent
deriving DecidableEq, Repr

/-- Static configuration (environment variables): symbol, the four EMA
periods and the DRY_RUN flag. -/
structure Config where
  symbol : String
  emaEntryFast : Nat
  emaEntrySlow : Nat
  emaExitFast : Nat
  emaExitSlow : Nat
  dryRun : Bool
deriving DecidableEq, Repr

/-- JS `<` on possibly-`undefined` numbers: any comparison with
`undefined` is `false`. -/
def jlt : Option ℚ → Option ℚ → Bool
  | some a, some b => decide (a < b)
  | _, _ => false

/-- JS `>` on possibly-`undefined` numbers: any comparison with
`undefined` is `false`. -/
def jgt : Option ℚ → Option ℚ → Bool
  | some a, some b => decide (b < a)
  | _, _ => false

/-- `detectCross` of the source (lines 103-107). -/
def detectCross (prevFast prevSlow fast slow : Option ℚ) : Signal :=
  if jlt prevFast prevSlow && jgt fast slow then Signal.GOLDEN
  else if jgt prevFast prevSlow && jlt fast slow then Signal.DEATH
  else Signal.NONE

/-- JS `arr.at(-1)`. -/
def atLast (l : List ℚ) : Option ℚ := l.getLast?

/-- JS `arr.at(-2)`: `undefined` unless the array has at least two
elements. -/
def atPenult (l : List ℚ) : Option ℚ :=
  if 2 ≤ l.length then l[l.length - 2]? else none

/-- Modelled from the spec: the Moving-Average Engine (`EMA.calculate` of
the external `technicalindicators` package, not part of this repository).
Per the spec's interface contract it is a pure function
`(period, series) -> series'` where `series'` has length
`max(0, len(series) - period + 1)`, each output being the exponential
moving average up to and including that sample: the first output seeds
with the simple average of the first `period` samples and subsequent
outputs follow the standard EMA recurrence with multiplier
`2 / (period + 1)`. -/
def emaCalculate (period : Nat) (values : List ℚ) : List ℚ :=
  if period = 0 ∨ values.length < period then []
  else
    let k : ℚ := 2 / ((period : ℚ) + 1)
    let seed : ℚ := (values.take period).sum / (period : ℚ)
    (values.drop period).scanl (fun prev v => (v - prev) * k + prev) seed

/-- The entry-pair EMA series (`entryFastArr` / `entrySlowArr`). -/
def entryFastArr (cfg : Config) (closes : List ℚ) : List ℚ :=
  emaCalculate cfg.emaEntryFast closes

def entrySlowArr (cfg : Config) (closes : List ℚ) : List ℚ :=
  emaCalculate cfg.emaEntrySlow closes

/-- The exit-pair EMA series (`exitFastArr` / `exitSlowArr`). -/
def exitFastArr (cfg : Config) (closes : List ℚ) : List ℚ :=
  emaCalculate cfg.emaExitFast closes

def exitSlowArr (cfg : Config) (closes : List ℚ) : List ℚ :=
  emaCalculate cfg.emaExitSlow closes

/-- `entrySignal` as computed in `tick` (lines 213-216, 225). -/
def entrySignalOf (cfg : Config) (closes : List ℚ) : Signal :=
  detectCross (atPenult (entryFastArr cfg closes)) (atPenult (entrySlowArr cfg closes))
    (atLast (entryFastArr cfg closes)) (atLast (entrySlowArr cfg closes))

/-- `exitSignal` as computed in `tick` (lines 218-221, 226). -/
def exitSignalOf (cfg : Config) (closes : List ℚ) : Signal :=
  detectCross (atPenult (exitFastArr cfg closes)) (atPenult (exitSlowArr cfg closes))
    (atLast (exitFastArr cfg closes)) (atLast (exitSlowArr cfg closes))

/-- The `base` document built by `openTrade` (lines 129-140), with the
object id the insert would assign. -/
def openDocBase (cfg : Config) (positionType : Side) (price emaFast emaSlow : Option ℚ)
    (now : Nat) (nid : Nat) : PositionDoc :=
  { id := DocId.oid nid
    symbol := cfg.symbol
    status := PStatus.OPEN
    qty := 1
    positionType := positionType
    entryPrice := price
    entryTime := now
    entryEMAfast := emaFast
    entryEMAslow := emaSlow
    createdAt := now
    updatedAt := now }

/-- `openTrade` (lines 128-149): build the OPEN document; in DRY_RUN cache
it under the id "dryrun" without any durable write; otherwise insert it
and cache the inserted record. -/
def openTrade (cfg : Config) (positionType : Side) (price emaFast emaSlow : Option ℚ)
    (now : Nat) (s : BotState) : BotState :=
  let base := openDocBase cfg positionType price emaFast emaSlow now s.nextId
  if cfg.dryRun then
    { s with openPosition := some { base with id := DocId.dryrun }
             log := s.log ++ [LogEvent.openEvt] }
  else
    { s with positions := s.positions ++ [base]
             nextId := s.nextId + 1
             openPosition := some base
             log := s.log ++ [LogEvent.openEvt] }

/-- The profit/loss computed by `closeTrade` (lines 154-158):
`(isLong ? price - entryPrice : entryPrice - price) * (qty || 1)`;
arithmetic on `undefined` yields a non-number (`none`). -/
def pnlOf (p : PositionDoc) (price : Option ℚ) : Option ℚ :=
  let qty : ℚ := if p.qty = 0 then 1 else p.qty
  match price, p.entryPrice with
  | some x, some e =>
      some ((if p.positionType = Side.LONG then x - e else e - x) * qty)
  | _, _ => none

/-- The `$set` document of the conditional close update (lines 170-180). -/
def closeUpdate (price emaFast emaSlow pnl : Option ℚ) (now : Nat)
    (d : PositionDoc) : PositionDoc :=
  { d with status := PStatus.CLOSED
           exitPrice := price
           exitTime := some now
           exitEMAfast := emaFast
           exitEMAslow := emaSlow
           profitLoss := pnl
           updatedAt := now }

/-- `findOneAndUpdate({_id: i, status: "OPEN"}, ..., returnDocument: after)`:
update the first document matching the id with status still OPEN, returning
the updated list and the post-update document (`none` when no document
matched). -/
def findOneAndUpdateOpen : List PositionDoc → DocId → (PositionDoc → PositionDoc) →
    List PositionDoc × Option PositionDoc
  | [], _, _ => ([], none)
  | d :: rest, i, f =>
    if d.id = i ∧ d.status = PStatus.OPEN then (f d :: rest, some (f d))
    else
      let r := findOneAndUpdateOpen rest i f
      (d :: r.1, r.2)

/-- `closeTrade` (lines 151-192): no-op when nothing is cached as open;
in DRY_RUN just log and clear the cache; otherwise attempt the conditional
update keyed by `(id, status = OPEN)`, warn when it matched nothing, and
clear the cache on both outcomes. -/
def closeTrade (cfg : Config) (price emaFast emaSlow : Option ℚ) (now : Nat)
    (s : BotState) : BotState :=
  match s.openPosition with
  | none => s
  | some p =>
    let pnl := pnlOf p price
    if cfg.dryRun then
      { s with openPosition := none, log := s.log ++ [LogEvent.closeEvt] }
    else
      let r := findOneAndUpdateOpen s.positions p.id
        (closeUpdate price emaFast emaSlow pnl now)
      match r.2 with
      | some _ =>
          { s with positions := r.1
                   openPosition := none
                   log := s.log ++ [LogEvent.closeEvt] }
      | none =>
          { s with positions := r.1
                   openPosition := none
                   log := s.log ++ [LogEvent.warnNoOpenToClose] }

/-- The snapshot written unconditionally by `tick` (lines 228-237). -/
def snapshotOf (cfg : Config) (closes : List ℚ) (now : Nat) : Snapshot :=
  { price := atLast closes
    emaEntryFast := atLast (entryFastArr cfg closes)
    emaEntrySlow := atLast (entrySlowArr cfg closes)
    emaExitFast := atLast (exitFastArr cfg closes)
    emaExitSlow := atLast (exitSlowArr cfg closes)
    entrySignal := entrySignalOf cfg closes
    exitSignal := exitSignalOf cfg closes
    lastTickAt := some now }

/-- The entry/exit decision step of `tick` (lines 239-253), evaluated
against the in-memory cache. -/
def tickDecide (cfg : Config) (closes : List ℚ) (now : Nat) (s : BotState) : BotState :=
  match s.openPosition with
  | none =>
    if entrySignalOf cfg closes = Signal.GOLDEN then
      openTrade cfg Side.LONG (atLast closes) (atLast (entryFastArr cfg closes))
        (atLast (entrySlowArr cfg closes)) now s
    else if entrySignalOf cfg closes = Signal.DEATH then
      openTrade cfg Side.SHORT (atLast closes) (atLast (entryFastArr cfg closes))
        (atLast (entrySlowArr cfg closes)) now s
    else s
  | some p =>
    if exitSignalOf cfg closes = Signal.GOLDEN ∧ p.positionType = Side.SHORT then
      closeTrade cfg (atLast closes) (atLast (exitFastArr cfg closes))
        (atLast (exitSlowArr cfg closes)) now s
    else if exitSignalOf cfg closes = Signal.DEATH ∧ p.positionType = Side.LONG then
      closeTrade cfg (atLast closes) (atLast (exitFastArr cfg closes))
        (atLast (exitSlowArr cfg closes)) now s
    else s

/-- Lines 205-264 of `tick`: compute the EMA series and signals, write the
snapshot, run the decision step, and emit the per-tick summary line. -/
def tickEval (cfg : Config) (closes : List ℚ) (now : Nat) (s : BotState) : BotState :=
  let s1 := tickDecide cfg closes now { s with cached := snapshotOf cfg closes now }
  { s1 with log := s1.log ++ [LogEvent.tickSummary] }

/-- The body of `tick`'s try block (lines 199-264) plus the catch handler:
a failed fetch only logs, a window shorter than
`max(EMA_ENTRY_SLOW, EMA_EXIT_SLOW)` warns and aborts, otherwise the tick
is evaluated. -/
def tickBody (cfg : Config) (fetch : Option (List ℚ)) (now : Nat) (s : BotState) : BotState :=
  match fetch with
  | none => { s with log := s.log ++ [LogEvent.errTick] }
  | some closes =>
    if closes.length < max cfg.emaEntrySlow cfg.emaExitSlow then
      { s with log := s.log ++ [LogEvent.warnNotEnoughCandles] }
    else
      tickEval cfg closes now s

/-- `tick` (lines 195-270): drop the invocation when the guard is held,
otherwise set the guard, run the body, and release the guard on every exit
path (the `finally` block). -/
def tick (cfg : Config) (fetch : Option (List ℚ)) (now : Nat) (s : BotState) : BotState :=
  if s.isTickRunning then s
  else
    let s2 := tickBody cfg fetch now { s with isTickRunning := true }
    { s2 with isTickRunning := false }

/-- Documents of the collection that are OPEN for the given symbol. -/
def openDocsFor (sym : String) (l : List PositionDoc) : List PositionDoc :=
  l.filter (fun d => decide (d.symbol = sym ∧ d.status = PStatus.OPEN))

/-- Number of OPEN documents for the given symbol. -/
def openCount (sym : String) (l : List PositionDoc) : Nat :=
  (openDocsFor sym l).length

/-- The durable single-open-position invariant of the spec. -/
def AtMostOneOpen (sym : String) (l : List PositionDoc) : Prop :=
  openCount sym l ≤ 1

/-- `find({symbol, status: OPEN}).sort({createdAt: -1}).limit(1)`:
the OPEN document for the symbol with the greatest `createdAt`. -/
def latestOpen (sym : String) (l : List PositionDoc) : Option PositionDoc :=
  (openDocsFor sym l).foldl
    (fun acc d =>
      match acc with
      | none => some d
      | some a => if a.createdAt < d.createdAt then some d else some a)
    none

/-- `restoreOpenPosition` (lines 109-117): startup reconciliation of the
in-memory cache from durable storage (skipped in DRY_RUN). -/
def restoreOpenPosition (cfg : Config) (s : BotState) : BotState :=
  if cfg.dryRun then s
  else { s with openPosition := latestOpen cfg.symbol s.positions }

/-- The initial `cached` object (lines 89-98). -/
def initialSnapshot : Snapshot :=
  { price := none
    emaEntryFast := none
    emaEntrySlow := none
    emaExitFast := none
    emaExitSlow := none
    entrySignal := Signal.NONE
    exitSignal := Signal.NONE
    lastTickAt := none }

/-- An upper bound on the object ids already present in a store, so that
the generator counter starts fresh. -/
def idBound (l : List PositionDoc) : Nat :=
  l.foldr
    (fun d m =>
      match d.id with
      | DocId.dryrun => m
      | DocId.oid n => max (n + 1) m)
    0

/-- Process start state over a pre-existing durable store (lines 86-98):
guard clear, no cached position, empty snapshot. -/
def initState (store0 : List PositionDoc) : BotState :=
  { isTickRunning := false
    openPosition := none
    cached := initialSnapshot
    positions := store0
    nextId := idBound store0
    log := [] }

/-- A sequence of tick invocations, each with its fetch outcome and
timestamp. -/
def runTicks (cfg : Config) (inputs : List (Option (List ℚ) × Nat)) (s : BotState) : BotState :=
  inputs.foldl (fun st inp => tick cfg inp.1 inp.2 st) s

/-- Well-formedness of the durable store: document ids are pairwise
distinct (a Mongo primary-key guarantee) and the fresh-id counter is
above every object id already present. -/
def StoreInv (s : BotState) : Prop :=
  (s.positions.map PositionDoc.id).Nodup ∧
  ∀ d ∈ s.positions, ∀ n, d.id = DocId.oid n → n < s.nextId

/-- Agreement of the in-memory cache with the durable store: with no
cached position there is no OPEN document for the symbol; with a cached
position there is at most one OPEN document for the symbol and any such
document carries the cached id. -/
def CacheInv (sym : String) (s : BotState) : Prop :=
  match s.openPosition with
  | none => openCount sym s.positions = 0
  | some p =>
      openCount sym s.positions ≤ 1 ∧
      ∀ d ∈ s.positions, d.symbol = sym → d.status = PStatus.OPEN → d.id = p.id

/-- The inductive invariant maintained across ticks: in DRY_RUN the store
is never written, elsewhere store well-formedness plus cache agreement. -/
def TickInv (cfg : Config) (s : BotState) : Prop :=
  if cfg.dryRun then AtMostOneOpen cfg.symbol s.positions
  else StoreInv s ∧ CacheInv cfg.symbol s

/-- A concrete configuration for concrete evaluations: entry EMA pair
(2, 3), exit EMA pair (2, 3), persistence enabled. -/
def cfg0 : Config :=
  { symbol := "BTCUSDT"
    emaEntryFast := 2
    emaEntrySlow := 3
    emaExitFast := 2
    emaExitSlow := 3
    dryRun := false }

/-- A price window whose last step produces a GOLDEN cross for the
(2, 3) EMA pair. -/
def closesG : List ℚ := [10, 9, 8, 7, 20]

/-- A price window whose last step produces a DEATH cross for the
(2, 3) EMA pair. -/
def closesD : List ℚ := [7, 8, 9, 10, 1]

/-- A concrete OPEN LONG document: entry price 100, quantity 1. -/
def openLongDoc : PositionDoc :=
  { id := DocId.oid 0
    symbol := "BTCUSDT"
    status := PStatus.OPEN
    qty := 1
    positionType := Side.LONG
    entryPrice := some 100
    entryTime := 0
    entryEMAfast := some 1
    entryEMAslow := some 2
    createdAt := 0
    updatedAt := 0 }

/-- A state holding `openLongDoc` both in cache and in the store. -/
def stateWithLong : BotState :=
  { isTickRunning := false
    openPosition := some openLongDoc
    cached := initialSnapshot
    positions := [openLongDoc]
    nextId := 1
    log := [] }

/-- A state whose cache claims an open position the (empty) store does not
hold, exercising the conditional-close failure path. -/
def stateStaleCache : BotState :=
  { isTickRunning := false
    openPosition := some openLongDoc
    cached := initialSnapshot
    positions := []
    nextId := 1
    log := [] }

/-- C2: For all numeric inputs (prevFast, prevSlow, fast, slow),
`detectCross` returns GOLDEN iff prevFast < prevSlow and fast > slow;
DEATH iff prevFast > prevSlow and fast < slow; and NONE in every other
case, including the exact-equality cases prevFast == prevSlow and
fast == slow. -/
theorem C2_detectCross_classification (a b c d : ℚ) :
    (detectCross (some a) (some b) (some c) (some d) = Signal.GOLDEN ↔ a < b ∧ c > d)
    ∧ (detectCross (some a) (some b) (some c) (some d) = Signal.DEATH ↔ a > b ∧ c < d)
    ∧ (detectCross (some a) (some b) (some c) (some d) = Signal.NONE ↔
        ¬(a < b ∧ c > d) ∧ ¬(a > b ∧ c < d))
    ∧ detectCross (some a) (some a) (some c) (some d) = Signal.NONE
    ∧ detectCross (some a) (some b) (some c) (some c) = Signal.NONE := by
  refine ⟨?_, ?_, ?_, ?_, ?_⟩ <;>
    simp only [detectCross, jlt, jgt, GT.gt, Bool.and_eq_true, decide_eq_true_eq] <;>
    split_ifs with h1 h2 <;>
    simp_all <;>
    (intro h3; linarith [h1.1, h1.2])

theorem fOAU_length (l : List PositionDoc) (i : DocId) (f : PositionDoc → PositionDoc) :
    (findOneAndUpdateOpen l i f).1.length = l.length := by
  induction l with
  | nil => rfl
  | cons d rest ih =>
    simp only [findOneAndUpdateOpen]
    split
    · simp
    · simpa using ih

theorem fOAU_map_id (l : List PositionDoc) (i : DocId) (f : PositionDoc → PositionDoc)
    (hf : ∀ d, (f d).id = d.id) :
    (findOneAndUpdateOpen l i f).1.map PositionDoc.id = l.map PositionDoc.id := by
  induction l with
  | nil => rfl
  | cons d rest ih =>
    simp only [findOneAndUpdateOpen]
    split
    · simp [hf]
    · simpa using ih

theorem fOAU_some (l : List PositionDoc) (i : DocId) (f : PositionDoc → PositionDoc)
    (r : PositionDoc) (h : (findOneAndUpdateOpen l i f).2 = some r) :
    ∃ d ∈ l, d.id = i ∧ d.status = PStatus.OPEN ∧ r = f d := by
  induction l with
  | nil => simp [findOneAndUpdateOpen] at h
  | cons d rest ih =>
    simp only [findOneAndUpdateOpen] at h
    by_cases hc : d.id = i ∧ d.status = PStatus.OPEN
    · rw [if_pos hc] at h
      simp only [Option.some.injEq] at h
      exact ⟨d, by simp, hc.1, hc.2, h.symm⟩
    · rw [if_neg hc] at h
      obtain ⟨e, he, h1, h2, h3⟩ := ih (by simpa using h)
      exact ⟨e, by simp [he], h1, h2, h3⟩

theorem fOAU_no_match (l : List PositionDoc) (i : DocId) (f : PositionDoc → PositionDoc)
    (h : ∀ d ∈ l, ¬(d.id = i ∧ d.status = PStatus.OPEN)) :
    findOneAndUpdateOpen l i f = (l, none) := by
  induction l with
  | nil => rfl
  | cons d rest ih =>
    simp only [findOneAndUpdateOpen]
    rw [if_neg (h d (by simp))]
    have hrest := ih (fun e he => h e (by simp [he]))
    simp [hrest]

theorem openCount_cons (sym : String) (d : PositionDoc) (l : List PositionDoc) :
    openCount sym (d :: l) =
      (if d.symbol = sym ∧ d.status = PStatus.OPEN then 1 else 0) + openCount sym l := by
  by_cases h : d.symbol = sym ∧ d.status = PStatus.OPEN <;>
    simp [openCount, openDocsFor, List.filter_cons, h, Nat.add_comm]

theorem openCount_append (sym : String) (l1 l2 : List PositionDoc) :
    openCount sym (l1 ++ l2) = openCount sym l1 + openCount sym l2 := by
  simp [openCount, openDocsFor, List.filter_append]

theorem openCount_eq_zero (sym : String) (l : List PositionDoc) :
    openCount sym l = 0 ↔ ∀ d ∈ l, ¬(d.symbol = sym ∧ d.status = PStatus.OPEN) := by
  simp [openCount, openDocsFor, List.length_eq_zero, List.filter_eq_nil_iff]

theorem fOAU_count_zero (sym : String) (l : List PositionDoc) (i : DocId)
    (f : PositionDoc → PositionDoc)
    (hf : ∀ d, (f d).status = PStatus.CLOSED)
    (hids : (l.map PositionDoc.id).Nodup)
    (hall : ∀ d ∈ l, d.symbol = sym → d.status = PStatus.OPEN → d.id = i) :
    openCount sym (findOneAndUpdateOpen l i f).1 = 0 := by
  induction l with
  | nil => rfl
  | cons d rest ih =>
    simp only [findOneAndUpdateOpen]
    simp only [List.map_cons, List.nodup_cons] at hids
    split
    case isTrue h =>
      simp only
      rw [openCount_cons, if_neg (fun hc => by simp [hf d] at hc)]
      rw [Nat.zero_add, openCount_eq_zero]
      intro e he hc
      have hei : e.id = i := hall e (by simp [he]) hc.1 hc.2
      exact hids.1 (by
        rw [h.1, ← hei]
        exact List.mem_map_of_mem PositionDoc.id he)
    case isFalse h =>
      simp only
      rw [openCount_cons, if_neg (fun hc => h ⟨hall d (by simp) hc.1 hc.2, hc.2⟩)]
      rw [Nat.zero_add]
      exact ih hids.2 (fun e he h1 h2 => hall e (by simp [he]) h1 h2)

theorem openTrade_cached (cfg : Config) (side : Side) (price eF eS : Option ℚ) (now : Nat)
    (s : BotState) : (openTrade cfg side price eF eS now s).cached = s.cached := by
  cases hdry : cfg.dryRun <;> simp [openTrade, hdry]

theorem openTrade_positions (cfg : Config) (side : Side) (price eF eS : Option ℚ) (now : Nat)
    (s : BotState) :
    (openTrade cfg side price eF eS now s).positions =
      (if cfg.dryRun then s.positions
       else s.positions ++ [openDocBase cfg side price eF eS now s.nextId]) := by
  cases hdry : cfg.dryRun <;> simp [openTrade, hdry]

theorem openTrade_openPosition (cfg : Config) (side : Side) (price eF eS : Option ℚ)
    (now : Nat) (s : BotState) :
    (openTrade cfg side price eF eS now s).openPosition =
      some (if cfg.dryRun then
              { openDocBase cfg side price eF eS now s.nextId with id := DocId.dryrun }
            else openDocBase cfg side price eF eS now s.nextId) := by
  cases hdry : cfg.dryRun <;> simp [openTrade, hdry]

theorem closeTrade_none (cfg : Config) (price eF eS : Option ℚ) (now : Nat)
    (s : BotState) (hnone : s.openPosition = none) :
    closeTrade cfg price eF eS now s = s := by
  simp [closeTrade, hnone]

theorem closeTrade_openPosition (cfg : Config) (price eF eS : Option ℚ) (now : Nat)
    (s : BotState) (p : PositionDoc) (hp : s.openPosition = some p) :
    (closeTrade cfg price eF eS now s).openPosition = none := by
  unfold closeTrade
  rw [hp]
  cases hdry : cfg.dryRun
  · simp only [hdry, Bool.false_eq_true, if_false]
    rcases hr : (findOneAndUpdateOpen s.positions p.id
        (closeUpdate price eF eS (pnlOf p price) now)).2 with _ | r <;> simp [hr]
  · simp [hdry]

theorem closeTrade_cached (cfg : Config) (price eF eS : Option ℚ) (now : Nat)
    (s : BotState) : (closeTrade cfg price eF eS now s).cached = s.cached := by
  unfold closeTrade
  rcases hp : s.openPosition with _ | p
  · rfl
  · cases hdry : cfg.dryRun
    · simp only [hdry, Bool.false_eq_true, if_false]
      rcases hr : (findOneAndUpdateOpen s.positions p.id
          (closeUpdate price eF eS (pnlOf p price) now)).2 with _ | r <;> simp [hr]
    · simp [hdry]

theorem closeTrade_positions_length (cfg : Config) (price eF eS : Option ℚ) (now : Nat)
    (s : BotState) :
    (closeTrade cfg price eF eS now s).positions.length = s.positions.length := by
  unfold closeTrade
  rcases hp : s.openPosition with _ | p
  · rfl
  · cases hdry : cfg.dryRun
    · simp only [hdry, Bool.false_eq_true, if_false]
      rcases hr : (findOneAndUpdateOpen s.positions p.id
          (closeUpdate price eF eS (pnlOf p price) now)).2 with _ | r <;>
        simp [hr, fOAU_length]
    · simp [hdry]

/-- C7: Calling close() when no Position is cached as open performs no
durable write and changes no state (idempotent no-op), for every price and
moving-average argument. -/
theorem C7_close_noop (cfg : Config) (price eF eS : Option ℚ) (now : Nat) (s : BotState)
    (hnone : s.openPosition = none) :
    closeTrade cfg price eF eS now s = s :=
  closeTrade_none cfg price eF eS now s hnone

theorem C7_close_noop_witness :
    closeTrade cfg0 (some 5) none none 3 (initState []) = initState [] :=
  C7_close_noop cfg0 (some 5) none none 3 (initState []) rfl

/-- C6: When closeTrade runs with a cached open position, the profit/loss
it computes and records is (exitPrice − entryPrice) × qty for a LONG and
(entryPrice − exitPrice) × qty for a SHORT, and the document written by the
conditional update carries exactly that value. -/
theorem C6_close_pnl (cfg : Config) (price eF eS : Option ℚ) (now : Nat)
    (s : BotState) (p : PositionDoc) (x e : ℚ)
    (hp : s.openPosition = some p) (hq : p.qty ≠ 0)
    (hx : price = some x) (he : p.entryPrice = some e) :
    (p.positionType = Side.LONG → pnlOf p price = some ((x - e) * p.qty))
    ∧ (p.positionType = Side.SHORT → pnlOf p price = some ((e - x) * p.qty))
    ∧ (∀ r, (findOneAndUpdateOpen s.positions p.id
          (closeUpdate price eF eS (pnlOf p price) now)).2 = some r →
        r.profitLoss = pnlOf p price)
    ∧ (cfg.dryRun = false →
        (closeTrade cfg price eF eS now s).positions =
          (findOneAndUpdateOpen s.positions p.id
            (closeUpdate price eF eS (pnlOf p price) now)).1) := by
  refine ⟨?_, ?_, ?_, ?_⟩
  · intro hl
    simp [pnlOf, hx, he, hq, hl]
  · intro hs
    simp [pnlOf, hx, he, hq, hs]
  · intro r hr
    obtain ⟨d, hd, h1, h2, h3⟩ := fOAU_some _ _ _ _ hr
    simp [h3, closeUpdate]
  · intro hdry
    unfold closeTrade
    rw [hp]
    simp only [hdry, Bool.false_eq_true, if_false]
    rcases hr : (findOneAndUpdateOpen s.positions p.id
        (closeUpdate price eF eS (pnlOf p price) now)).2 with _ | r <;> simp [hr]

theorem C6_close_pnl_witness :
    pnlOf openLongDoc (some 90) = some (-10) := by
  have h := (C6_close_pnl cfg0 (some 90) none none 3 stateWithLong openLongDoc 90 100
    rfl (by decide) rfl rfl).1 rfl
  rw [h]
  show some ((90 - 100) * openLongDoc.qty) = some (-10)
  norm_num [openLongDoc]

/-- C8: the durable close is a conditional update that succeeds only if
the targeted record's status is still OPEN; when no such record exists the
store is left unchanged (no retry) and a warning is reported, and the
in-memory cache is cleared after every closeTrade that had a cached open
position. -/
theorem C8_conditional_close (cfg : Config) (price eF eS : Option ℚ) (now : Nat)
    (s : BotState) (p : PositionDoc)
    (hdry : cfg.dryRun = false) (hp : s.openPosition = some p) :
    (closeTrade cfg price eF eS now s).openPosition = none
    ∧ (∀ r, (findOneAndUpdateOpen s.positions p.id
          (closeUpdate price eF eS (pnlOf p price) now)).2 = some r →
        ∃ d ∈ s.positions, d.id = p.id ∧ d.status = PStatus.OPEN
          ∧ r = closeUpdate price eF eS (pnlOf p price) now d)
    ∧ ((∀ d ∈ s.positions, ¬(d.id = p.id ∧ d.status = PStatus.OPEN)) →
        (closeTrade cfg price eF eS now s).positions = s.positions
        ∧ (closeTrade cfg price eF eS now s).log = s.log ++ [LogEvent.warnNoOpenToClose]) := by
  refine ⟨closeTrade_openPosition _ _ _ _ _ _ _ hp, fun r hr => fOAU_some _ _ _ _ hr, ?_⟩
  intro hno
  have hn := fOAU_no_match s.positions p.id (closeUpdate price eF eS (pnlOf p price) now) hno
  unfold closeTrade
  rw [hp]
  simp [hdry, hn]

theorem C8_conditional_close_witness :
    (closeTrade cfg0 (some 90) none none 3 stateStaleCache).openPosition = none
    ∧ (closeTrade cfg0 (some 90) none none 3 stateStaleCache).positions = []
    ∧ (closeTrade cfg0 (some 90) none none 3 stateStaleCache).log =
        [LogEvent.warnNoOpenToClose] := by
  obtain ⟨h1, _, h3⟩ :=
    C8_conditional_close cfg0 (some 90) none none 3 stateStaleCache openLongDoc rfl rfl
  obtain ⟨h4, h5⟩ := h3 (by intro d hd; simp [stateStaleCache] at hd)
  exact ⟨h1, by simpa [stateStaleCache] using h4, by simpa [stateStaleCache] using h5⟩

theorem tick_ok_eq (cfg : Config) (closes : List ℚ) (now : Nat) (s : BotState)
    (hrun : s.isTickRunning = false)
    (hnl : ¬ closes.length < max cfg.emaEntrySlow cfg.emaExitSlow) :
    tick cfg (some closes) now s =
      { tickEval cfg closes now { s with isTickRunning := true } with
          isTickRunning := false } := by
  simp [tick, hrun, tickBody, hnl]

theorem tickDecide_cached (cfg : Config) (closes : List ℚ) (now : Nat) (s : BotState) :
    (tickDecide cfg closes now s).cached = s.cached := by
  unfold tickDecide
  cases hp : s.openPosition with
  | none => dsimp only; split_ifs <;> simp [openTrade_cached]
  | some p => dsimp only; split_ifs <;> simp [closeTrade_cached]

theorem tickEval_cached (cfg : Config) (closes : List ℚ) (now : Nat) (s : BotState) :
    (tickEval cfg closes now s).cached = snapshotOf cfg closes now := by
  unfold tickEval
  simp [tickDecide_cached]

/-- C4 counterexample: an invocation of tick whose fetched window is too
short (here empty) leaves the Cached Snapshot untouched, so not every
invocation refreshes it. -/
theorem C4_counterexample :
    (tick cfg0 (some []) 7 (initState [])).cached = initialSnapshot
    ∧ initialSnapshot.lastTickAt = none := by
  constructor <;> rfl

/-- C4 (amended): every invocation of tick that passes the guard and whose
fetched series is long enough refreshes the whole Cached Snapshot (latest
price, the four moving-average values, both signals and lastTickAt),
regardless of whether a trade action occurred. -/
theorem C4_snapshot_refresh (cfg : Config) (closes : List ℚ) (now : Nat) (s : BotState)
    (hrun : s.isTickRunning = false)
    (hlen : max cfg.emaEntrySlow cfg.emaExitSlow ≤ closes.length) :
    (tick cfg (some closes) now s).cached = snapshotOf cfg closes now := by
  rw [tick_ok_eq cfg closes now s hrun (Nat.not_lt.mpr hlen)]
  simp [tickEval_cached]

theorem C4_snapshot_refresh_witness :
    (tick cfg0 (some closesG) 5 (initState [])).cached = snapshotOf cfg0 closesG 5 :=
  C4_snapshot_refresh cfg0 closesG 5 (initState []) rfl (by decide)

/-- C9: a tick whose fetched series is shorter than
max(entrySlowPeriod, exitSlowPeriod) aborts with a warning and no
position-state change, while a series of exactly that length is accepted
and proceeds to signal evaluation. -/
theorem C9_window_boundary (cfg : Config) (closes : List ℚ) (now : Nat) (s : BotState)
    (hrun : s.isTickRunning = false) :
    (closes.length < max cfg.emaEntrySlow cfg.emaExitSlow →
      (tick cfg (some closes) now s).positions = s.positions
      ∧ (tick cfg (some closes) now s).openPosition = s.openPosition
      ∧ (tick cfg (some closes) now s).cached = s.cached
      ∧ (tick cfg (some closes) now s).isTickRunning = false
      ∧ (tick cfg (some closes) now s).log = s.log ++ [LogEvent.warnNotEnoughCandles])
    ∧ (closes.length = max cfg.emaEntrySlow cfg.emaExitSlow →
      (tick cfg (some closes) now s).cached = snapshotOf cfg closes now) := by
  constructor
  · intro hlt
    simp [tick, hrun, tickBody, hlt]
  · intro heq
    rw [tick_ok_eq cfg closes now s hrun (by omega)]
    simp [tickEval_cached]

theorem C9_window_boundary_witness :
    (tick cfg0 (some [10, 9]) 3 (initState [])).positions = (initState []).positions
    ∧ (tick cfg0 (some [10, 9, 8]) 3 (initState [])).cached = snapshotOf cfg0 [10, 9, 8] 3 := by
  refine ⟨((C9_window_boundary cfg0 [10, 9] 3 (initState []) rfl).1 (by decide)).1, ?_⟩
  exact (C9_window_boundary cfg0 [10, 9, 8] 3 (initState []) rfl).2 (by decide)

theorem emaCalculate_length (period : Nat) (values : List ℚ)
    (h1 : 1 ≤ period) (h2 : period ≤ values.length) :
    (emaCalculate period values).length = values.length - period + 1 := by
  unfold emaCalculate
  rw [if_neg (by push_neg; exact ⟨by omega, by omega⟩)]
  simp [List.length_scanl]

theorem atPenult_of_length_one (l : List ℚ) (h : l.length = 1) : atPenult l = none := by
  simp [atPenult, h]

theorem detectCross_absent_prev (a b c : Option ℚ) :
    detectCross none a b c = Signal.NONE ∧ detectCross a none b c = Signal.NONE := by
  cases a <;> simp [detectCross, jlt, jgt]

/-- C10: a price window whose length equals an EMA pair's slow period makes
that pair's EMA series a single element, so the previous value read via
`.at(-2)` is absent and `detectCross` yields NONE for the pair; when the
entry slow period is the largest configured period, the minimal accepted
window can therefore never open a position. -/
theorem C10_minimal_window (cfg : Config) (closes : List ℚ) (now : Nat) (s : BotState)
    (h1 : 1 ≤ cfg.emaEntrySlow)
    (hlen : closes.length = cfg.emaEntrySlow)
    (hmax : cfg.emaExitSlow ≤ cfg.emaEntrySlow)
    (hrun : s.isTickRunning = false)
    (hnone : s.openPosition = none) :
    (entrySlowArr cfg closes).length = 1
    ∧ atPenult (entrySlowArr cfg closes) = none
    ∧ (∀ a b c : Option ℚ, detectCross none a b c = Signal.NONE
        ∧ detectCross a none b c = Signal.NONE)
    ∧ entrySignalOf cfg closes = Signal.NONE
    ∧ (tick cfg (some closes) now s).openPosition = none
    ∧ (tick cfg (some closes) now s).positions = s.positions := by
  have hl : (entrySlowArr cfg closes).length = 1 := by
    rw [entrySlowArr, emaCalculate_length cfg.emaEntrySlow closes h1 (by omega)]
    omega
  have hpen : atPenult (entrySlowArr cfg closes) = none := atPenult_of_length_one _ hl
  have hsig : entrySignalOf cfg closes = Signal.NONE := by
    rw [entrySignalOf, hpen]
    exact (detectCross_absent_prev _ _ _).2
  have hnl : ¬ closes.length < max cfg.emaEntrySlow cfg.emaExitSlow := by
    rw [Nat.max_eq_left hmax]
    omega
  rw [tick_ok_eq cfg closes now s hrun hnl]
  refine ⟨hl, hpen, fun a b c => detectCross_absent_prev a b c, hsig, ?_, ?_⟩ <;>
    simp [tickEval, tickDecide, hnone, hsig]

theorem C10_minimal_window_witness :
    entrySignalOf cfg0 [10, 9, 8] = Signal.NONE
    ∧ (tick cfg0 (some [10, 9, 8]) 3 (initState [])).openPosition = none
    ∧ (tick cfg0 (some [10, 9, 8]) 3 (initState [])).positions = (initState []).positions := by
  obtain ⟨_, _, _, h4, h5, h6⟩ :=
    C10_minimal_window cfg0 [10, 9, 8] 3 (initState []) (by decide) rfl (by decide) rfl rfl
  exact ⟨h4, h5, h6⟩


theorem tick_open_golden (cfg : Config) (closes : List ℚ) (now : Nat) (s : BotState)
    (hrun : s.isTickRunning = false)
    (hlen : max cfg.emaEntrySlow cfg.emaExitSlow ≤ closes.length)
    (hnone : s.openPosition = none)
    (hsig : entrySignalOf cfg closes = Signal.GOLDEN) :
    (tick cfg (some closes) now s).openPosition =
      some (if cfg.dryRun then
              { openDocBase cfg Side.LONG (atLast closes) (atLast (entryFastArr cfg closes))
                  (atLast (entrySlowArr cfg closes)) now s.nextId with id := DocId.dryrun }
            else openDocBase cfg Side.LONG (atLast closes) (atLast (entryFastArr cfg closes))
                  (atLast (entrySlowArr cfg closes)) now s.nextId)
    ∧ (tick cfg (some closes) now s).positions =
        (if cfg.dryRun then s.positions
         else s.positions ++ [openDocBase cfg Side.LONG (atLast closes)
           (atLast (entryFastArr cfg closes)) (atLast (entrySlowArr cfg closes)) now s.nextId]) := by
  rw [tick_ok_eq cfg closes now s hrun (Nat.not_lt.mpr hlen)]
  simp [tickEval, tickDecide, hnone, hsig, openTrade_openPosition, openTrade_positions]

theorem tick_open_death (cfg : Config) (closes : List ℚ) (now : Nat) (s : BotState)
    (hrun : s.isTickRunning = false)
    (hlen : max cfg.emaEntrySlow cfg.emaExitSlow ≤ closes.length)
    (hnone : s.openPosition = none)
    (hsig : entrySignalOf cfg closes = Signal.DEATH) :
    (tick cfg (some closes) now s).openPosition =
      some (if cfg.dryRun then
              { openDocBase cfg Side.SHORT (atLast closes) (atLast (entryFastArr cfg closes))
                  (atLast (entrySlowArr cfg closes)) now s.nextId with id := DocId.dryrun }
            else openDocBase cfg Side.SHORT (atLast closes) (atLast (entryFastArr cfg closes))
                  (atLast (entrySlowArr cfg closes)) now s.nextId)
    ∧ (tick cfg (some closes) now s).positions =
        (if cfg.dryRun then s.positions
         else s.positions ++ [openDocBase cfg Side.SHORT (atLast closes)
           (atLast (entryFastArr cfg closes)) (atLast (entrySlowArr cfg closes)) now s.nextId]) := by
  rw [tick_ok_eq cfg closes now s hrun (Nat.not_lt.mpr hlen)]
  simp [tickEval, tickDecide, hnone, hsig, openTrade_openPosition, openTrade_positions]

theorem tick_close_effects (cfg : Config) (closes : List ℚ) (now : Nat) (s : BotState)
    (p : PositionDoc)
    (hrun : s.isTickRunning = false)
    (hlen : max cfg.emaEntrySlow cfg.emaExitSlow ≤ closes.length)
    (hp : s.openPosition = some p)
    (hcond : exitSignalOf cfg closes = Signal.DEATH ∧ p.positionType = Side.LONG ∨
             exitSignalOf cfg closes = Signal.GOLDEN ∧ p.positionType = Side.SHORT) :
    (tick cfg (some closes) now s).openPosition = none
    ∧ (tick cfg (some closes) now s).positions.length = s.positions.length := by
  rw [tick_ok_eq cfg closes now s hrun (Nat.not_lt.mpr hlen)]
  rcases hcond with ⟨hsig, hside⟩ | ⟨hsig, hside⟩
  · simp [tickEval, tickDecide, hp, hsig, hside, closeTrade_positions_length]
    exact closeTrade_openPosition _ _ _ _ _ _ p rfl
  · simp [tickEval, tickDecide, hp, hsig, hside, closeTrade_positions_length]
    exact closeTrade_openPosition _ _ _ _ _ _ p rfl

/-- C3: on every successful tick, with no cached position a GOLDEN entry
signal opens a LONG, a DEATH entry signal opens a SHORT and anything else
does nothing; with a cached position, a LONG closes only on exit DEATH, a
SHORT only on exit GOLDEN, every other combination does nothing, and the
entry signal plays no role. -/
theorem C3_decision_rules (cfg : Config) (closes : List ℚ) (now : Nat) (s : BotState)
    (hrun : s.isTickRunning = false)
    (hlen : max cfg.emaEntrySlow cfg.emaExitSlow ≤ closes.length) :
    (s.openPosition = none → entrySignalOf cfg closes = Signal.GOLDEN →
      (tick cfg (some closes) now s).openPosition =
        some (if cfg.dryRun then
                { openDocBase cfg Side.LONG (atLast closes) (atLast (entryFastArr cfg closes))
                    (atLast (entrySlowArr cfg closes)) now s.nextId with id := DocId.dryrun }
              else openDocBase cfg Side.LONG (atLast closes) (atLast (entryFastArr cfg closes))
                    (atLast (entrySlowArr cfg closes)) now s.nextId)
      ∧ (tick cfg (some closes) now s).positions =
          (if cfg.dryRun then s.positions
           else s.positions ++ [openDocBase cfg Side.LONG (atLast closes)
             (atLast (entryFastArr cfg closes)) (atLast (entrySlowArr cfg closes)) now s.nextId]))
    ∧ (s.openPosition = none → entrySignalOf cfg closes = Signal.DEATH →
      (tick cfg (some closes) now s).openPosition =
        some (if cfg.dryRun then
                { openDocBase cfg Side.SHORT (atLast closes) (atLast (entryFastArr cfg closes))
                    (atLast (entrySlowArr cfg closes)) now s.nextId with id := DocId.dryrun }
              else openDocBase cfg Side.SHORT (atLast closes) (atLast (entryFastArr cfg closes))
                    (atLast (entrySlowArr cfg closes)) now s.nextId)
      ∧ (tick cfg (some closes) now s).positions =
          (if cfg.dryRun then s.positions
           else s.positions ++ [openDocBase cfg Side.SHORT (atLast closes)
             (atLast (entryFastArr cfg closes)) (atLast (entrySlowArr cfg closes)) now s.nextId]))
    ∧ (s.openPosition = none → entrySignalOf cfg closes = Signal.NONE →
      (tick cfg (some closes) now s).openPosition = none
      ∧ (tick cfg (some closes) now s).positions = s.positions)
    ∧ (∀ p, s.openPosition = some p →
      (exitSignalOf cfg closes = Signal.DEATH ∧ p.positionType = Side.LONG ∨
       exitSignalOf cfg closes = Signal.GOLDEN ∧ p.positionType = Side.SHORT) →
      (tick cfg (some closes) now s).openPosition = none
      ∧ (tick cfg (some closes) now s).positions.length = s.positions.length)
    ∧ (∀ p, s.openPosition = some p →
      ¬(exitSignalOf cfg closes = Signal.DEATH ∧ p.positionType = Side.LONG) →
      ¬(exitSignalOf cfg closes = Signal.GOLDEN ∧ p.positionType = Side.SHORT) →
      (tick cfg (some closes) now s).openPosition = some p
      ∧ (tick cfg (some closes) now s).positions = s.positions) := by
  refine ⟨fun hnone hsig => tick_open_golden cfg closes now s hrun hlen hnone hsig,
          fun hnone hsig => tick_open_death cfg closes now s hrun hlen hnone hsig,
          ?_, fun p hp hcond => tick_close_effects cfg closes now s p hrun hlen hp hcond, ?_⟩
  · intro hnone hsig
    rw [tick_ok_eq cfg closes now s hrun (Nat.not_lt.mpr hlen)]
    simp [tickEval, tickDecide, hnone, hsig]
  · intro p hp hc1 hc2
    rw [tick_ok_eq cfg closes now s hrun (Nat.not_lt.mpr hlen)]
    simp only [tickEval, tickDecide, hp]
    rw [if_neg (fun hc => hc2 ⟨hc.1, hc.2⟩), if_neg (fun hc => hc1 ⟨hc.1, hc.2⟩)]
    simp

theorem closesG_entry_golden : entrySignalOf cfg0 closesG = Signal.GOLDEN := by
  norm_num [entrySignalOf, entryFastArr, entrySlowArr, cfg0, closesG, emaCalculate,
    List.scanl, atLast, atPenult, detectCross, jlt, jgt]

theorem closesD_exit_death : exitSignalOf cfg0 closesD = Signal.DEATH := by
  norm_num [exitSignalOf, exitFastArr, exitSlowArr, cfg0, closesD, emaCalculate,
    List.scanl, atLast, atPenult, detectCross, jlt, jgt]

theorem C3_decision_rules_witness :
    (tick cfg0 (some closesG) 5 (initState [])).openPosition =
      some (openDocBase cfg0 Side.LONG (atLast closesG) (atLast (entryFastArr cfg0 closesG))
        (atLast (entrySlowArr cfg0 closesG)) 5 0)
    ∧ (tick cfg0 (some closesD) 9 stateWithLong).openPosition = none
    ∧ (tick cfg0 (some closesD) 9 stateWithLong).positions.length = 1 := by
  have h1 := ((C3_decision_rules cfg0 closesG 5 (initState []) rfl (by decide)).1
    rfl closesG_entry_golden).1
  have h2 := (C3_decision_rules cfg0 closesD 9 stateWithLong rfl (by decide)).2.2.2.1
    openLongDoc rfl (Or.inl ⟨closesD_exit_death, rfl⟩)
  refine ⟨?_, h2.1, ?_⟩
  · rw [h1]
    norm_num [cfg0, initState, idBound]
  · rw [h2.2]
    rfl

/-- C5: an invocation of tick while the guard is held is a pure no-op; the
guard is released on every exit path — for every fetch outcome, including
a fetch failure and a too-short window, a tick entered with the guard
clear ends with the guard clear; and of two overlapping invocations with a
GOLDEN entry signal and no prior open position, the second (which observes
the guard held) does nothing while the pair as a whole performs exactly
one durable write, the insert of the new LONG document. -/
theorem C5_guard_semantics (cfg : Config) (f2 : Option (List ℚ)) (now now2 : Nat)
    (s : BotState) (closes : List ℚ)
    (hdry : cfg.dryRun = false) (hrun : s.isTickRunning = false)
    (hnone : s.openPosition = none)
    (hsig : entrySignalOf cfg closes = Signal.GOLDEN)
    (hlen : max cfg.emaEntrySlow cfg.emaExitSlow ≤ closes.length) :
    (∀ s2 : BotState, s2.isTickRunning = true → tick cfg f2 now2 s2 = s2)
    ∧ (∀ s2 : BotState, ∀ f : Option (List ℚ), ∀ n : Nat, s2.isTickRunning = false →
        (tick cfg f n s2).isTickRunning = false)
    ∧ (tick cfg (some closes) now s).isTickRunning = false
    ∧ tick cfg f2 now2 { s with isTickRunning := true } = { s with isTickRunning := true }
    ∧ (tick cfg (some closes) now s).positions =
        s.positions ++ [openDocBase cfg Side.LONG (atLast closes)
          (atLast (entryFastArr cfg closes)) (atLast (entrySlowArr cfg closes)) now s.nextId] := by
  have hheld : ∀ s2 : BotState, s2.isTickRunning = true → tick cfg f2 now2 s2 = s2 :=
    fun s2 h2 => by simp [tick, h2]
  have hrelease : ∀ s2 : BotState, ∀ f : Option (List ℚ), ∀ n : Nat,
      s2.isTickRunning = false → (tick cfg f n s2).isTickRunning = false :=
    fun s2 f n h2 => by simp [tick, h2]
  refine ⟨hheld, hrelease, hrelease s (some closes) now hrun, hheld _ rfl, ?_⟩
  have h := (tick_open_golden cfg closes now s hrun hlen hnone hsig).2
  rw [h, if_neg (by simp [hdry])]

theorem C5_guard_semantics_witness :
    tick cfg0 none 9 { initState [] with isTickRunning := true } =
      { initState [] with isTickRunning := true }
    ∧ (tick cfg0 none 9 (initState [])).isTickRunning = false
    ∧ (tick cfg0 (some [10]) 9 (initState [])).isTickRunning = false
    ∧ (tick cfg0 (some closesG) 5 (initState [])).isTickRunning = false
    ∧ (tick cfg0 (some closesG) 5 (initState [])).positions =
        [openDocBase cfg0 Side.LONG (atLast closesG) (atLast (entryFastArr cfg0 closesG))
          (atLast (entrySlowArr cfg0 closesG)) 5 0] := by
  obtain ⟨h1, h2, h3, h4, h5⟩ := C5_guard_semantics cfg0 none 5 9 (initState []) closesG rfl rfl
    rfl closesG_entry_golden (by decide)
  refine ⟨h4, h2 (initState []) none 9 rfl, h2 (initState []) (some [10]) 9 rfl, h3, ?_⟩
  rw [h5]
  norm_num [initState, idBound]

theorem fOAU_mem (l : List PositionDoc) (i : DocId) (f : PositionDoc → PositionDoc)
    (d : PositionDoc) (hd : d ∈ (findOneAndUpdateOpen l i f).1) :
    d ∈ l ∨ ∃ e ∈ l, d = f e := by
  induction l with
  | nil => simp [findOneAndUpdateOpen] at hd
  | cons a rest ih =>
    simp only [findOneAndUpdateOpen] at hd
    by_cases hc : a.id = i ∧ a.status = PStatus.OPEN
    · rw [if_pos hc] at hd
      rcases List.mem_cons.mp hd with h | h
      · exact Or.inr ⟨a, by simp, h⟩
      · exact Or.inl (by simp [h])
    · rw [if_neg hc] at hd
      rcases List.mem_cons.mp hd with h | h
      · exact Or.inl (by simp [h])
      · rcases ih h with h2 | ⟨e, he, h3⟩
        · exact Or.inl (by simp [h2])
        · exact Or.inr ⟨e, by simp [he], h3⟩

theorem inv_of_fields (sym : String) (s s' : BotState)
    (hpos : s'.positions = s.positions) (hop : s'.openPosition = s.openPosition)
    (hnid : s'.nextId = s.nextId) (h : StoreInv s ∧ CacheInv sym s) :
    StoreInv s' ∧ CacheInv sym s' := by
  unfold StoreInv CacheInv at *
  rw [hpos, hop, hnid]
  exact h


theorem CacheInv_none (sym : String) (s : BotState) (h : s.openPosition = none) :
    CacheInv sym s ↔ openCount sym s.positions = 0 := by
  unfold CacheInv
  rw [h]

theorem CacheInv_some (sym : String) (s : BotState) (p : PositionDoc)
    (h : s.openPosition = some p) :
    CacheInv sym s ↔ (openCount sym s.positions ≤ 1 ∧
      ∀ d ∈ s.positions, d.symbol = sym → d.status = PStatus.OPEN → d.id = p.id) := by
  unfold CacheInv
  rw [h]

theorem openTrade_inv (cfg : Config) (side : Side) (price eF eS : Option ℚ) (now : Nat)
    (s : BotState) (hdry : cfg.dryRun = false) (hnone : s.openPosition = none)
    (h : StoreInv s ∧ CacheInv cfg.symbol s) :
    StoreInv (openTrade cfg side price eF eS now s)
    ∧ CacheInv cfg.symbol (openTrade cfg side price eF eS now s) := by
  obtain ⟨⟨hnd, hfresh⟩, hcache⟩ := h
  have hzero : openCount cfg.symbol s.positions = 0 :=
    (CacheInv_none _ _ hnone).mp hcache
  have hnomem : ∀ d ∈ s.positions, ¬(d.symbol = cfg.symbol ∧ d.status = PStatus.OPEN) :=
    (openCount_eq_zero _ _).mp hzero
  unfold openTrade
  rw [hdry]
  simp only [Bool.false_eq_true, if_false]
  set base := openDocBase cfg side price eF eS now s.nextId with hbase
  constructor
  · constructor
    · show (List.map PositionDoc.id (s.positions ++ [base])).Nodup
      rw [List.map_append]
      rw [List.nodup_append]
      refine ⟨hnd, by simp, ?_⟩
      intro x hx hx2
      simp only [List.map_cons, List.map_nil, List.mem_singleton] at hx2
      obtain ⟨d, hd, hdid⟩ := List.mem_map.mp hx
      have := hfresh d hd s.nextId (by rw [hdid, hx2, hbase]; rfl)
      omega
    · show ∀ d ∈ s.positions ++ [base], ∀ n, d.id = DocId.oid n → n < s.nextId + 1
      intro d hd n hn
      rcases List.mem_append.mp hd with h1 | h1
      · have := hfresh d h1 n hn
        omega
      · simp only [List.mem_singleton] at h1
        subst h1
        rw [hbase] at hn
        simp only [openDocBase, DocId.oid.injEq] at hn
        omega
  · rw [CacheInv_some cfg.symbol _ base rfl]
    constructor
    · show openCount cfg.symbol (s.positions ++ [base]) ≤ 1
      rw [openCount_append, hzero, openCount_cons]
      simp [hbase, openDocBase]
      rfl
    · show ∀ d ∈ s.positions ++ [base], _
      intro d hd hsym hst
      rcases List.mem_append.mp hd with h1 | h1
      · exact absurd ⟨hsym, hst⟩ (hnomem d h1)
      · simp only [List.mem_singleton] at h1
        rw [h1]

theorem closeTrade_inv (cfg : Config) (price eF eS : Option ℚ) (now : Nat)
    (s : BotState) (p : PositionDoc)
    (hdry : cfg.dryRun = false) (hp : s.openPosition = some p)
    (h : StoreInv s ∧ CacheInv cfg.symbol s) :
    StoreInv (closeTrade cfg price eF eS now s)
    ∧ CacheInv cfg.symbol (closeTrade cfg price eF eS now s) := by
  obtain ⟨⟨hnd, hfresh⟩, hcache⟩ := h
  have hc := (CacheInv_some cfg.symbol s p hp).mp hcache
  have hid : ∀ d, (closeUpdate price eF eS (pnlOf p price) now d).id = d.id := fun d => rfl
  have hst : ∀ d, (closeUpdate price eF eS (pnlOf p price) now d).status = PStatus.CLOSED :=
    fun d => rfl
  have hstore : StoreInv { s with
      positions := (findOneAndUpdateOpen s.positions p.id
        (closeUpdate price eF eS (pnlOf p price) now)).1, openPosition := none } := by
    constructor
    · show (List.map PositionDoc.id (findOneAndUpdateOpen s.positions p.id
        (closeUpdate price eF eS (pnlOf p price) now)).1).Nodup
      rw [fOAU_map_id _ _ _ hid]
      exact hnd
    · intro d hd n hn
      rcases fOAU_mem _ _ _ d hd with h1 | ⟨e, he, h2⟩
      · exact hfresh d h1 n hn
      · rw [h2, hid] at hn
        exact hfresh e he n hn
  have hcc : CacheInv cfg.symbol { s with
      positions := (findOneAndUpdateOpen s.positions p.id
        (closeUpdate price eF eS (pnlOf p price) now)).1, openPosition := none } := by
    rw [CacheInv_none _ _ rfl]
    exact fOAU_count_zero cfg.symbol s.positions p.id _ hst hnd hc.2
  unfold closeTrade
  rw [hp]
  simp only [hdry, Bool.false_eq_true, if_false]
  rcases hr : (findOneAndUpdateOpen s.positions p.id
      (closeUpdate price eF eS (pnlOf p price) now)).2 with _ | r
  · simp only [hr]
    exact inv_of_fields _ _ _ rfl rfl rfl ⟨hstore, hcc⟩
  · simp only [hr]
    exact inv_of_fields _ _ _ rfl rfl rfl ⟨hstore, hcc⟩

theorem closeTrade_dry_positions (cfg : Config) (price eF eS : Option ℚ) (now : Nat)
    (s : BotState) (hdry : cfg.dryRun = true) :
    (closeTrade cfg price eF eS now s).positions = s.positions := by
  unfold closeTrade
  rcases hp : s.openPosition with _ | p
  · rfl
  · simp [hdry]

theorem tickDecide_dry_positions (cfg : Config) (closes : List ℚ) (now : Nat)
    (s : BotState) (hdry : cfg.dryRun = true) :
    (tickDecide cfg closes now s).positions = s.positions := by
  unfold tickDecide
  cases hp : s.openPosition with
  | none =>
    dsimp only
    split_ifs <;> simp [openTrade_positions, hdry]
  | some p =>
    dsimp only
    split_ifs <;> simp [closeTrade_dry_positions _ _ _ _ _ _ hdry]

theorem tickBody_dry_positions (cfg : Config) (f : Option (List ℚ)) (now : Nat)
    (s : BotState) (hdry : cfg.dryRun = true) :
    (tickBody cfg f now s).positions = s.positions := by
  unfold tickBody
  rcases f with _ | closes
  · rfl
  · dsimp only
    split_ifs
    · rfl
    · unfold tickEval
      simp only
      rw [tickDecide_dry_positions _ _ _ _ hdry]

theorem tick_dry_positions (cfg : Config) (f : Option (List ℚ)) (now : Nat)
    (s : BotState) (hdry : cfg.dryRun = true) :
    (tick cfg f now s).positions = s.positions := by
  unfold tick
  cases hrun : s.isTickRunning
  · simp only [Bool.false_eq_true, if_false]
    exact tickBody_dry_positions _ _ _ _ hdry
  · simp

theorem tickDecide_inv (cfg : Config) (closes : List ℚ) (now : Nat) (s : BotState)
    (hdry : cfg.dryRun = false) (h : StoreInv s ∧ CacheInv cfg.symbol s) :
    StoreInv (tickDecide cfg closes now s)
    ∧ CacheInv cfg.symbol (tickDecide cfg closes now s) := by
  unfold tickDecide
  cases hp : s.openPosition with
  | none =>
    dsimp only
    split_ifs <;> first
      | exact openTrade_inv _ _ _ _ _ _ _ hdry hp h
      | exact h
  | some p =>
    dsimp only
    split_ifs <;> first
      | exact closeTrade_inv _ _ _ _ _ _ p hdry hp h
      | exact h

theorem tickEval_inv (cfg : Config) (closes : List ℚ) (now : Nat) (s : BotState)
    (hdry : cfg.dryRun = false) (h : StoreInv s ∧ CacheInv cfg.symbol s) :
    StoreInv (tickEval cfg closes now s)
    ∧ CacheInv cfg.symbol (tickEval cfg closes now s) := by
  unfold tickEval
  exact inv_of_fields _ _ _ rfl rfl rfl
    (tickDecide_inv cfg closes now _ hdry (inv_of_fields _ _ _ rfl rfl rfl h))

theorem tickBody_inv (cfg : Config) (f : Option (List ℚ)) (now : Nat) (s : BotState)
    (hdry : cfg.dryRun = false) (h : StoreInv s ∧ CacheInv cfg.symbol s) :
    StoreInv (tickBody cfg f now s)
    ∧ CacheInv cfg.symbol (tickBody cfg f now s) := by
  unfold tickBody
  rcases f with _ | closes
  · exact inv_of_fields _ _ _ rfl rfl rfl h
  · dsimp only
    split_ifs
    · exact inv_of_fields _ _ _ rfl rfl rfl h
    · exact tickEval_inv cfg closes now s hdry h

theorem tick_inv (cfg : Config) (f : Option (List ℚ)) (now : Nat) (s : BotState)
    (h : TickInv cfg s) : TickInv cfg (tick cfg f now s) := by
  unfold TickInv at h ⊢
  cases hdry : cfg.dryRun
  · rw [hdry] at h
    simp only [Bool.false_eq_true, if_false] at h ⊢
    unfold tick
    cases hrun : s.isTickRunning
    · simp only [Bool.false_eq_true, if_false]
      exact inv_of_fields _ _ _ rfl rfl rfl
        (tickBody_inv cfg f now _ hdry (inv_of_fields _ _ _ rfl rfl rfl h))
    · simp only [eq_self_iff_true, if_true]
      exact h
  · rw [hdry] at h
    simp only [eq_self_iff_true, if_true] at h ⊢
    rw [tick_dry_positions cfg f now s hdry]
    exact h

theorem idBound_le_cons (d : PositionDoc) (l : List PositionDoc) :
    idBound l ≤ idBound (d :: l) := by
  unfold idBound
  simp only [List.foldr_cons]
  cases d.id
  · exact Nat.le_refl _
  · exact Nat.le_max_right _ _

theorem idBound_spec (l : List PositionDoc) :
    ∀ d ∈ l, ∀ n, d.id = DocId.oid n → n < idBound l := by
  induction l with
  | nil => simp
  | cons a rest ih =>
    intro d hd n hn
    rcases List.mem_cons.mp hd with h | h
    · subst h
      unfold idBound
      simp only [List.foldr_cons]
      rw [hn]
      exact Nat.lt_of_lt_of_le (Nat.lt_succ_self n) (Nat.le_max_left _ _)
    · exact Nat.lt_of_lt_of_le (ih d h n hn) (idBound_le_cons a rest)

theorem latestOpen_of_nil (sym : String) (l : List PositionDoc)
    (h : openDocsFor sym l = []) : latestOpen sym l = none := by
  unfold latestOpen
  rw [h]
  rfl

theorem latestOpen_of_single (sym : String) (l : List PositionDoc) (d : PositionDoc)
    (h : openDocsFor sym l = [d]) : latestOpen sym l = some d := by
  unfold latestOpen
  rw [h]
  rfl

theorem restore_init_inv (cfg : Config) (store0 : List PositionDoc)
    (hdry : cfg.dryRun = false)
    (hids : (store0.map PositionDoc.id).Nodup)
    (h0 : AtMostOneOpen cfg.symbol store0) :
    StoreInv (restoreOpenPosition cfg (initState store0))
    ∧ CacheInv cfg.symbol (restoreOpenPosition cfg (initState store0)) := by
  unfold restoreOpenPosition
  rw [hdry]
  simp only [Bool.false_eq_true, if_false]
  refine ⟨⟨hids, fun d hd n hn => idBound_spec store0 d hd n hn⟩, ?_⟩
  unfold AtMostOneOpen openCount at h0
  rcases hfil : openDocsFor cfg.symbol store0 with _ | ⟨d, rest⟩
  · rw [CacheInv_none _ _ (by simp only; exact latestOpen_of_nil _ _ hfil)]
    show openCount cfg.symbol store0 = 0
    rw [openCount, hfil]
    rfl
  · have hrest : rest = [] := by
      rw [hfil] at h0
      simpa using List.length_eq_zero.mp (by simpa using h0)
    subst hrest
    rw [CacheInv_some _ _ d (by simp only; exact latestOpen_of_single _ _ d hfil)]
    constructor
    · show openCount cfg.symbol store0 ≤ 1
      rw [openCount, hfil]
      simp
    · show ∀ e ∈ store0, e.symbol = cfg.symbol → e.status = PStatus.OPEN → e.id = d.id
      intro e he hsym hst
      have hmem : e ∈ openDocsFor cfg.symbol store0 :=
        List.mem_filter.mpr ⟨he, by simp [hsym, hst]⟩
      rw [hfil] at hmem
      simp only [List.mem_singleton] at hmem
      rw [hmem]

theorem TickInv_init (cfg : Config) (store0 : List PositionDoc)
    (hids : (store0.map PositionDoc.id).Nodup)
    (h0 : AtMostOneOpen cfg.symbol store0) :
    TickInv cfg (restoreOpenPosition cfg (initState store0)) := by
  unfold TickInv
  cases hdry : cfg.dryRun
  · simp only [Bool.false_eq_true, if_false]
    exact restore_init_inv cfg store0 hdry hids h0
  · simp only [eq_self_iff_true, if_true]
    unfold restoreOpenPosition
    rw [hdry]
    simp only [eq_self_iff_true, if_true]
    exact h0

theorem TickInv_atMostOne (cfg : Config) (s : BotState) (h : TickInv cfg s) :
    AtMostOneOpen cfg.symbol s.positions := by
  unfold TickInv at h
  cases hdry : cfg.dryRun
  · rw [hdry] at h
    simp only [Bool.false_eq_true, if_false] at h
    rcases hp : s.openPosition with _ | p
    · rw [AtMostOneOpen, (CacheInv_none _ _ hp).mp h.2]
      omega
    · exact ((CacheInv_some _ _ p hp).mp h.2).1
  · rw [hdry] at h
    simpa using h

theorem runTicks_inv (cfg : Config) (inputs : List (Option (List ℚ) × Nat)) :
    ∀ s : BotState, TickInv cfg s → TickInv cfg (runTicks cfg inputs s) := by
  induction inputs with
  | nil => exact fun s h => h
  | cons i rest ih =>
    intro s h
    exact ih _ (tick_inv cfg i.1 i.2 s h)


theorem tick_no_insert_when_open (cfg : Config) (f : Option (List ℚ)) (n : Nat)
    (s : BotState) (p : PositionDoc) (hp : s.openPosition = some p) :
    (tick cfg f n s).positions.length = s.positions.length := by
  unfold tick
  cases hrun : s.isTickRunning
  · simp only [Bool.false_eq_true, if_false]
    unfold tickBody
    rcases f with _ | closes
    · rfl
    · dsimp only
      split_ifs
      · rfl
      · unfold tickEval tickDecide
        dsimp only
        rw [hp]
        dsimp only
        split_ifs <;> simp [closeTrade_positions_length]
  · simp

theorem tick_docs_preserved_when_none (cfg : Config) (f : Option (List ℚ)) (n : Nat)
    (s : BotState) (hnone : s.openPosition = none) :
    ∀ d ∈ s.positions, d ∈ (tick cfg f n s).positions := by
  intro d hd
  unfold tick
  cases hrun : s.isTickRunning
  · simp only [Bool.false_eq_true, if_false]
    unfold tickBody
    rcases f with _ | closes
    · exact hd
    · dsimp only
      split_ifs
      · exact hd
      · unfold tickEval tickDecide
        dsimp only
        rw [hnone]
        dsimp only
        split_ifs with h1 h2
        · rw [openTrade_positions]
          split_ifs
          · exact hd
          · simp [hd]
        · rw [openTrade_positions]
          split_ifs
          · exact hd
          · simp [hd]
        · exact hd
  · simpa

/-- C1: starting from a durable store holding at most one OPEN position
for the instrument (with distinct document ids, a store guarantee), after
startup reconciliation and any sequence of tick invocations the durable
store still holds at most one OPEN position for the instrument; moreover a
tick never inserts a document while a position is cached as open, and never
touches an existing document unless one is cached as open. -/
theorem C1_single_open_invariant (cfg : Config) (store0 : List PositionDoc)
    (hids : (store0.map PositionDoc.id).Nodup)
    (h0 : AtMostOneOpen cfg.symbol store0)
    (inputs : List (Option (List ℚ) × Nat)) :
    AtMostOneOpen cfg.symbol
      (runTicks cfg inputs (restoreOpenPosition cfg (initState store0))).positions
    ∧ (∀ s : BotState, ∀ p, s.openPosition = some p → ∀ f n,
        (tick cfg f n s).positions.length = s.positions.length)
    ∧ (∀ s : BotState, s.openPosition = none → ∀ f n, ∀ d ∈ s.positions,
        d ∈ (tick cfg f n s).positions) :=
  ⟨TickInv_atMostOne cfg _
      (runTicks_inv cfg inputs _ (TickInv_init cfg store0 hids h0)),
   fun s p hp f n => tick_no_insert_when_open cfg f n s p hp,
   fun s hnone f n => tick_docs_preserved_when_none cfg f n s hnone⟩

theorem C1_single_open_invariant_witness :
    AtMostOneOpen cfg0.symbol
      (runTicks cfg0 [(some closesD, 1), (some closesG, 2), (none, 3)]
        (restoreOpenPosition cfg0 (initState [openLongDoc]))).positions :=
  (C1_single_open_invariant cfg0 [openLongDoc] (by decide)
    (by unfold AtMostOneOpen; decide)
    [(some closesD, 1), (some closesG, 2), (none, 3)]).1
